import Mathlib

/-!
Verification of the natural-language specification of the
`minecraft-launcher-core` crate against a shallow Lean embedding of its
source.  Each definition mirrors one Rust item; the file/line pointers are
given in the doc comments.  External effects (HTTP responses, the local
filesystem, hash functions, the regex engine) are passed in as explicit
parameters, and panics are modelled by `Option`/`Except` error values.
-/

namespace MCL

/-! ## Version identifiers (`src/json/minecraft_version.rs`, duplicated in `src/versions/info.rs`) -/

/-- ASCII decimal digit test.  Models the regex class `\d` used by the five
version-shape regexes (restricted to the ASCII range, the only range on which
the subsequent `str::parse::<i32>` succeeds). -/
def isDigit (c : Char) : Bool :=
  c == '0' || c == '1' || c == '2' || c == '3' || c == '4' ||
  c == '5' || c == '6' || c == '7' || c == '8' || c == '9'

/-- Numeric value of an ASCII digit character (`0` for anything else). -/
def digitVal (c : Char) : Nat :=
  if c = '1' then 1 else if c = '2' then 2 else if c = '3' then 3 else
  if c = '4' then 4 else if c = '5' then 5 else if c = '6' then 6 else
  if c = '7' then 7 else if c = '8' then 8 else if c = '9' then 9 else 0

/-- ASCII digit character for a digit value (`'0'` for anything not in `1..9`). -/
def digitChar (d : Nat) : Char :=
  if d = 1 then '1' else if d = 2 then '2' else if d = 3 then '3' else
  if d = 4 then '4' else if d = 5 then '5' else if d = 6 then '6' else
  if d = 7 then '7' else if d = 8 then '8' else if d = 9 then '9' else '0'

/-- Decimal value of a digit string, as computed by `str::parse` on an
all-digit string (most significant digit first). -/
def parseDigits (cs : List Char) : Nat :=
  cs.foldl (fun a c => a * 10 + digitVal c) 0

/-- Largest value representable by Rust's `i32` (the regexes only produce
unsigned numerals, so the relevant bound is the positive one). -/
def i32Max : Nat := 2147483647

/-- Models `str::parse::<i32>().unwrap()` on an all-digit string: `none`
models the panic when the value overflows `i32`. -/
def parseI32 (cs : List Char) : Option Nat :=
  if parseDigits cs ≤ i32Max then some (parseDigits cs) else none

/-- Lift of `parseI32` to the optional patch component. -/
def parseOptI32 : Option (List Char) → Option (Option Nat)
  | none => some none
  | some cs => (parseI32 cs).map some

/-- Little-endian base-10 digits of `n`, computed with explicit fuel so that
the definition is structurally recursive. -/
def natDigitsRevFuel : Nat → Nat → List Nat
  | 0, _ => []
  | f + 1, n => if n = 0 then [] else n % 10 :: natDigitsRevFuel f (n / 10)

/-- Decimal rendering of a natural number, as produced by Rust's
`format!("{n}")`. -/
def natChars (n : Nat) : List Char :=
  if n = 0 then ['0'] else (natDigitsRevFuel (n + 1) n).reverse.map digitChar

/-- Decimal rendering padded to width two, as produced by `format!("{n:02}")`
(used for the snapshot year and week). -/
def pad2 (n : Nat) : List Char :=
  if n < 10 then '0' :: natChars n else natChars n

/-- Splits a character list at every `'.'`, mirroring how the release regex
`^(\d+)\.(\d+)(?:\.(\d+))?$` decomposes its subject. -/
def splitDot : List Char → List (List Char)
  | [] => [[]]
  | c :: rest =>
    match splitDot rest with
    | [] => [[c]]
    | g :: gs => if c = '.' then [] :: g :: gs else (c :: g) :: gs

/-- Inverse of `splitDot`: interleaves `'.'` between the groups. -/
def joinDot : List (List Char) → List Char
  | [] => []
  | [g] => g
  | g :: g2 :: gs => g ++ '.' :: joinDot (g2 :: gs)

/-- A nonempty run of digits, i.e. a match of `\d+`. -/
def digitsGroup (cs : List Char) : Bool :=
  !cs.isEmpty && cs.all isDigit

/-- Matcher for the release regex `^(\d+)\.(\d+)(?:\.(\d+))?$`, returning the
captured digit groups. -/
def matchRelease (cs : List Char) : Option (List Char × List Char × Option (List Char)) :=
  match splitDot cs with
  | [a, b] => if digitsGroup a && digitsGroup b then some (a, b, none) else none
  | [a, b, c] =>
    if digitsGroup a && digitsGroup b && digitsGroup c then some (a, b, some c) else none
  | _ => none

/-- Matcher for the snapshot regex `^(\d{2})w(\d{2})(.)$` (a `.` in the Rust
regex crate matches any character except a newline). -/
def matchSnapshot : List Char → Option (Char × Char × Char × Char × Char)
  | [y1, y2, w, w1, w2, r] =>
    if isDigit y1 && isDigit y2 && w = 'w' && isDigit w1 && isDigit w2 && !(r = '\n') then
      some (y1, y2, w1, w2, r)
    else none
  | _ => none

/-- Characters that can occur in the `(\d+)\.(\d+)(?:\.(\d+))?` prefix of the
three suffixed version regexes. -/
def isVerChar (c : Char) : Bool := isDigit c || c == '.'

/-- Matcher for the three suffixed regexes
`^(\d+)\.(\d+)(?:\.(\d+))?<sep>(\d+)$` with `sep` one of `" Pre-Release "`,
`"-pre"`, `"-rc"`.  Because the separator starts with a character that cannot
occur in the numeric prefix, taking the longest digits-and-dots prefix
decomposes the subject exactly as the anchored regex does. -/
def matchSuffixed (sep : List Char) (cs : List Char) :
    Option (List Char × List Char × Option (List Char) × List Char) :=
  if (cs.dropWhile isVerChar).take sep.length = sep then
    if digitsGroup ((cs.dropWhile isVerChar).drop sep.length) then
      match matchRelease (cs.takeWhile isVerChar) with
      | some (a, b, p) => some (a, b, p, (cs.dropWhile isVerChar).drop sep.length)
      | none => none
    else none
  else none

/-- The characters contributed by an optional captured patch group
(`.patch` when present, nothing otherwise). -/
def patchChars : Option (List Char) → List Char
  | some c => '.' :: c
  | none => []

/-- Separator of the `1.14 Pre-Release 4` shape. -/
def preReleaseNewSep : List Char :=
  [' ', 'P', 'r', 'e', '-', 'R', 'e', 'l', 'e', 'a', 's', 'e', ' ']

/-- Separator of the `1.9.1-pre2` shape. -/
def preReleaseOldSep : List Char := ['-', 'p', 'r', 'e']

/-- Separator of the `1.19.3-rc3` shape. -/
def releaseCandidateSep : List Char := ['-', 'r', 'c']

/-- The six shapes of `MCVersion` from `src/json/minecraft_version.rs`. -/
inductive MCVersion where
  | release (major minor : Nat) (patch : Option Nat)
  | snapshot (year week : Nat) (revision : Char)
  | preReleaseNew (major minor : Nat) (patch : Option Nat) (prerelease : Nat)
  | preReleaseOld (major minor : Nat) (patch : Option Nat) (prerelease : Nat)
  | releaseCandidate (major minor : Nat) (patch : Option Nat) (rc : Nat)
  | other (value : String)
deriving DecidableEq, Repr

/-- The parser `MCVersion::from` (lines 23-140): the five regexes are tried in
order and the first match decides the shape; a subject matching none of them
becomes `other`.  `none` models the `parse::<i32>().unwrap()` panic on a
matched numeral that overflows `i32`. -/
def mcFrom (s : String) : Option MCVersion :=
  match matchRelease s.data with
  | some (a, b, p) =>
    match parseI32 a, parseI32 b, parseOptI32 p with
    | some mj, some mi, some pv => some (.release mj mi pv)
    | _, _, _ => none
  | none =>
  match matchSnapshot s.data with
  | some (y1, y2, w1, w2, r) =>
    some (.snapshot (parseDigits [y1, y2]) (parseDigits [w1, w2]) r)
  | none =>
  match matchSuffixed preReleaseNewSep s.data with
  | some (a, b, p, num) =>
    match parseI32 a, parseI32 b, parseOptI32 p, parseI32 num with
    | some mj, some mi, some pv, some pr => some (.preReleaseNew mj mi pv pr)
    | _, _, _, _ => none
  | none =>
  match matchSuffixed preReleaseOldSep s.data with
  | some (a, b, p, num) =>
    match parseI32 a, parseI32 b, parseOptI32 p, parseI32 num with
    | some mj, some mi, some pv, some pr => some (.preReleaseOld mj mi pv pr)
    | _, _, _, _ => none
  | none =>
  match matchSuffixed releaseCandidateSep s.data with
  | some (a, b, p, num) =>
    match parseI32 a, parseI32 b, parseOptI32 p, parseI32 num with
    | some mj, some mi, some pv, some pr => some (.releaseCandidate mj mi pv pr)
    | _, _, _, _ => none
  | none => some (.other s)

/-- Rendering of the `{major}.{minor}[.{patch}]` prefix shared by four
shapes. -/
def relChars (major minor : Nat) (patch : Option Nat) : List Char :=
  natChars major ++ '.' :: natChars minor ++
    (match patch with
     | some p => '.' :: natChars p
     | none => [])

/-- The printer `MCVersion::to_string` (lines 142-180). -/
def mcToString : MCVersion → String
  | .release mj mi p => ⟨relChars mj mi p⟩
  | .snapshot y w r => ⟨pad2 y ++ 'w' :: pad2 w ++ [r]⟩
  | .preReleaseNew mj mi p pr => ⟨relChars mj mi p ++ preReleaseNewSep ++ natChars pr⟩
  | .preReleaseOld mj mi p pr => ⟨relChars mj mi p ++ preReleaseOldSep ++ natChars pr⟩
  | .releaseCandidate mj mi p rc => ⟨relChars mj mi p ++ releaseCandidateSep ++ natChars rc⟩
  | .other v => v

/-- A digit group written in canonical decimal: nonempty, all digits and
without a redundant leading zero. -/
def canonicalDigits (cs : List Char) : Bool :=
  digitsGroup cs && ((cs == ['0']) || !(cs.head? == some '0'))

/-- Every numeric component captured by the regex that accepts `s` is written
in canonical decimal form (trivially true for the snapshot shape, whose
two-digit fields are re-printed with width two, and for `other`). -/
def canonicalComponents (s : String) : Bool :=
  match matchRelease s.data with
  | some (a, b, p) =>
    canonicalDigits a && canonicalDigits b &&
      (match p with
       | some c => canonicalDigits c
       | none => true)
  | none =>
  match matchSnapshot s.data with
  | some _ => true
  | none =>
  match matchSuffixed preReleaseNewSep s.data with
  | some (a, b, p, num) =>
    canonicalDigits a && canonicalDigits b &&
      (match p with
       | some c => canonicalDigits c
       | none => true) && canonicalDigits num
  | none =>
  match matchSuffixed preReleaseOldSep s.data with
  | some (a, b, p, num) =>
    canonicalDigits a && canonicalDigits b &&
      (match p with
       | some c => canonicalDigits c
       | none => true) && canonicalDigits num
  | none =>
  match matchSuffixed releaseCandidateSep s.data with
  | some (a, b, p, num) =>
    canonicalDigits a && canonicalDigits b &&
      (match p with
       | some c => canonicalDigits c
       | none => true) && canonicalDigits num
  | none => true

/-! ## Rule evaluation (`src/versions/json/rule.rs`; the identical module is
re-declared as `src/json/manifest/rule.rs`) -/

/-- Rule action, `src/versions/json/rule.rs` lines 52-55. -/
inductive RuleAction where
  | Allow
  | Disallow
deriving DecidableEq, Repr

/-- Operating systems, `src/versions/json/rule.rs` lines 109-111. -/
inductive OperatingSystem where
  | Linux
  | Windows
  | Osx
  | Unknown
deriving DecidableEq, Repr

/-- Feature keys, `src/versions/json/rule.rs` lines 59-66. -/
inductive RuleFeatureType where
  | IsDemoUser
  | HasCustomResolution
  | HasQuickPlaysSupport
  | IsQuickPlaySingleplayer
  | IsQuickPlayMultiplayer
  | IsQuickPlayRealms
deriving DecidableEq, Repr

/-- A JSON value as carried by a rule's `features` map (`serde_json::Value`,
restricted to the scalar shapes the launcher compares). -/
inductive JsonValue where
  | bool (b : Bool)
  | num (n : Int)
  | str (s : String)
  | null
deriving DecidableEq, Repr

/-- OS restriction of a rule, `src/versions/json/rule.rs` lines 70-77. -/
structure OsRestriction where
  name : Option OperatingSystem
  arch : Option String
  version : Option String
deriving DecidableEq, Repr

/-- The runtime environment a rule is evaluated against, together with the
regex engine: `regexNew v` is `some` of the compiled matcher when
`Regex::new(v)` returns `Ok`, and `none` when it returns `Err`. -/
structure Platform where
  os : OperatingSystem
  arch : String
  osVersion : String
  regexNew : String → Option (String → Bool)

/-- Mirrors `OsRestriction::is_current_operating_system`
(`src/versions/json/rule.rs` lines 80-104): each early `return false` becomes
one branch of the ladder; an uncompilable `version` regex is skipped. -/
def OsRestriction.isCurrentOperatingSystem (env : Platform) (r : OsRestriction) : Bool :=
  if r.name.any (fun n => !(n == env.os)) then false
  else if r.arch.any (fun a => !(a == env.arch)) then false
  else if r.version.any (fun v =>
      match env.regexNew v with
      | some isMatch => !(isMatch env.osVersion)
      | none => false) then false
  else true

/-- Modelled from the spec: `EnvironmentFeatures` (declared in the missing
`src/json/mod.rs`) is "the caller-supplied set of named flags describing the
current run's environment"; its `FeatureMatcher::has_feature` holds iff the
required key is present with exactly the required value. -/
abbrev EnvironmentFeatures : Type := List (RuleFeatureType × JsonValue)

/-- Modelled from the spec: exact-value membership test of a feature set. -/
def hasFeature (fm : EnvironmentFeatures) (t : RuleFeatureType) (v : JsonValue) : Bool :=
  match fm.find? (fun p => decide (p.1 = t)) with
  | some p => decide (p.2 = v)
  | none => false

/-- A rule, `src/versions/json/rule.rs` lines 19-25. -/
structure Rule where
  action : RuleAction
  features : Option (List (RuleFeatureType × JsonValue))
  os : Option OsRestriction
deriving DecidableEq, Repr

/-- Mirrors `Rule::get_applied_action` (`src/versions/json/rule.rs`
lines 28-46): `none` when the OS restriction rejects the platform, when some
required feature is absent or differs, or when the rule requires features and
no matcher was supplied; otherwise the rule's own action. -/
def Rule.getAppliedAction (env : Platform) (fm : Option EnvironmentFeatures) (r : Rule) :
    Option RuleAction :=
  if r.os.any (fun o => !(OsRestriction.isCurrentOperatingSystem env o)) then none
  else
    match r.features with
    | some feats =>
      match fm with
      | some matcher =>
        if feats.all (fun p => hasFeature matcher p.1 p.2) then some r.action else none
      | none => none
    | none => some r.action

/-- The fold of `Library::applies_to_current_environment`
(`src/json/manifest/library.rs` lines 32-37): the running action starts at
`Disallow` and each applied rule overwrites it. -/
def evaluateRules (env : Platform) (fm : Option EnvironmentFeatures) (rules : List Rule) :
    RuleAction :=
  rules.foldl
    (fun action r =>
      match r.getAppliedAction env fm with
      | some a => a
      | none => action)
    RuleAction.Disallow

/-- The rule-list evaluation contract implemented by
`Library::applies_to_current_environment` (`src/json/manifest/library.rs`
lines 27-40) and its copies on manifests and arguments: an empty list means
`Allow`, otherwise the fold above decides. -/
def evaluate (env : Platform) (fm : Option EnvironmentFeatures) (rules : List Rule) :
    RuleAction :=
  if rules.isEmpty then .Allow else evaluateRules env fm rules

/-- Second definition following the spec's words, for the refinement claim of
the rule evaluator: a rule matches iff its OS restriction (if any) accepts
the current platform and every required feature key is present with exactly
the required value. -/
def ruleMatchesSpec (env : Platform) (fm : EnvironmentFeatures) (r : Rule) : Bool :=
  (match r.os with
   | some o => OsRestriction.isCurrentOperatingSystem env o
   | none => true) &&
  (match r.features with
   | some feats => feats.all (fun p => hasFeature fm p.1 p.2)
   | none => true)

/-! ## Manifests and inheritance resolution (`src/json/manifest/mod.rs`; the
same struct and `resolve` are duplicated as `LocalVersionInfo` in
`src/versions/json/mod.rs`) -/

/-- RFC3339 timestamp; manifests only copy it around, so the textual form
suffices. -/
abbrev Date : Type := String

/-- Release classification, `src/versions/info.rs` lines 202-207. -/
inductive ReleaseType where
  | Release
  | Snapshot
  | OldBeta
  | OldAlpha
deriving DecidableEq, Repr

/-- A 20-byte SHA-1 value (`Sha1Sum`, `src/versions/json/mod.rs` lines 36-38). -/
abbrev Sha1Sum : Type := List Nat

/-- Argument phase, the two-valued key of the `arguments` map. -/
inductive ArgumentType where
  | Game
  | Jvm
deriving DecidableEq, Repr

/-- Argument value (`src/versions/json/mod.rs` lines 129-134). -/
inductive ArgumentValue where
  | str (s : String)
  | list (l : List String)
deriving DecidableEq, Repr

/-- A launch argument, plain or rule-guarded (`src/versions/json/mod.rs`
lines 90-98). -/
inductive Argument where
  | value (v : ArgumentValue)
  | object (rules : List Rule) (v : ArgumentValue)
deriving DecidableEq, Repr

/-- Asset-index reference (`AssetIndexInfo`). -/
structure AssetIndexInfo where
  id : String
  sha1 : Sha1Sum
  size : Int
  totalSize : Int
  url : String
deriving DecidableEq, Repr

/-- Artifact-kind key of the `downloads` map. -/
inductive DownloadType where
  | Client
  | Server
  | WindowsServer
  | ClientMappings
  | ServerMappings
deriving DecidableEq, Repr

/-- Download-location record (`DownloadInfo`). -/
structure DownloadInfo where
  sha1 : Sha1Sum
  size : Int
  url : String
deriving DecidableEq, Repr

/-- Java-runtime requirement (`JavaVersionInfo`). -/
structure JavaVersionInfo where
  component : String
  majorVersion : Int
deriving DecidableEq, Repr

/-- Log-configuration file reference (`LoggingEntryFile`). -/
structure LoggingEntryFile where
  id : String
  sha1 : Sha1Sum
  size : Int
  url : String
deriving DecidableEq, Repr

/-- Log-configuration entry (`LoggingEntry`). -/
structure LoggingEntry where
  argument : String
  file : LoggingEntryFile
  logType : String
deriving DecidableEq, Repr

/-- Modelled from the spec: the artifact coordinate
(group/name/version/optional classifier) of a library; the defining
`src/json/manifest/artifact.rs` is not in `src/`. -/
structure Artifact where
  group : String
  name : String
  version : String
  classifier : Option String
deriving DecidableEq, Repr

/-- Archive-extraction exclusions (`ExtractRules`,
`src/json/manifest/library.rs` lines 105-108). -/
structure ExtractRules where
  exclude : List String
deriving DecidableEq, Repr

/-- Per-library download info (`LibraryDownloadInfo`,
`src/json/manifest/library.rs` lines 121-126). -/
structure LibraryDownloadInfo where
  artifact : DownloadInfo
  classifiers : List (String × DownloadInfo)
deriving DecidableEq, Repr

/-- A library descriptor (`Library`, `src/json/manifest/library.rs`
lines 10-24). -/
structure Library where
  name : Artifact
  rules : List Rule
  natives : List (OperatingSystem × String)
  extract : Option ExtractRules
  url : Option String
  downloads : Option LibraryDownloadInfo
deriving DecidableEq, Repr

/-- `Library::applies_to_current_environment`
(`src/json/manifest/library.rs` lines 27-40). -/
def Library.appliesToCurrentEnvironment (env : Platform) (fm : Option EnvironmentFeatures)
    (lib : Library) : Bool :=
  decide (evaluate env fm lib.rules = RuleAction.Allow)

/-- The manifest record (`VersionManifest`, `src/json/manifest/mod.rs`
lines 26-63).  The `arguments` map keyed by the two-valued `ArgumentType` is
represented by its two entries `gameArguments` and `jvmArguments`. -/
structure VersionManifest where
  gameArguments : List Argument
  jvmArguments : List Argument
  minecraftArguments : Option String
  assetIndex : Option AssetIndexInfo
  assets : Option String
  compatibilityRules : List Rule
  complianceLevel : Option Nat
  downloads : List (DownloadType × DownloadInfo)
  id : MCVersion
  inheritsFrom : Option MCVersion
  javaVersion : Option JavaVersionInfo
  libraries : List Library
  logging : List (DownloadType × LoggingEntry)
  mainClass : Option String
  jar : Option MCVersion
  minimumLauncherVersion : Option Nat
  releaseTime : Date
  updatedTime : Date
  releaseType : ReleaseType
deriving DecidableEq

/-- `VersionManifest::get_main_class` (`src/json/manifest/mod.rs` lines 92-94,
duplicated at `src/versions/json/mod.rs` lines 325-327): the method calls
`self.main_class.as_ref().unwrap()`; `.error ()` models the `unwrap` panic on
a manifest without a `mainClass`. -/
def VersionManifest.getMainClass (m : VersionManifest) : Except Unit String :=
  match m.mainClass with
  | some s => .ok s
  | none => .error ()

/-- The merging step of `VersionManifest::resolve` (`src/json/manifest/mod.rs`
lines 158-214), applied to the already-resolved parent and the child: the
child's identity fields always win, sparse fields are overwritten only when
the child sets them, the child's libraries precede inherited ones, argument
lists are appended per phase and compatibility rules are concatenated
parent-then-child. -/
def mergeInto (parentResolved child : VersionManifest) : VersionManifest :=
  { parentResolved with
    inheritsFrom := none
    id := child.id
    updatedTime := child.updatedTime
    releaseTime := child.releaseTime
    releaseType := child.releaseType
    minecraftArguments :=
      match child.minecraftArguments with
      | some v => some v
      | none => parentResolved.minecraftArguments
    mainClass :=
      match child.mainClass with
      | some v => some v
      | none => parentResolved.mainClass
    assets :=
      match child.assets with
      | some v => some v
      | none => parentResolved.assets
    jar :=
      match child.jar with
      | some v => some v
      | none => parentResolved.jar
    assetIndex :=
      match child.assetIndex with
      | some v => some v
      | none => parentResolved.assetIndex
    libraries :=
      if child.libraries.isEmpty then parentResolved.libraries
      else child.libraries ++ parentResolved.libraries
    gameArguments := parentResolved.gameArguments ++ child.gameArguments
    jvmArguments := parentResolved.jvmArguments ++ child.jvmArguments
    compatibilityRules :=
      if child.compatibilityRules.isEmpty then parentResolved.compatibilityRules
      else parentResolved.compatibilityRules ++ child.compatibilityRules
    javaVersion :=
      match child.javaVersion with
      | some v => some v
      | none => parentResolved.javaVersion }

/-- Errors of `resolve`: the circular-dependency failure carries the chain of
identifiers it reports; `outOfFuel` is the artefact of bounding the recursion
depth of the embedding and corresponds to no source behaviour. -/
inductive ResolveError where
  | circular (chain : List MCVersion)
  | notFound (id : MCVersion)
  | outOfFuel
deriving DecidableEq

/-- `VersionManifest::resolve` (`src/json/manifest/mod.rs` lines 129-215,
duplicated at `src/versions/json/mod.rs` lines 362-449).  `getEff id` is the
parent manifest the version manager produces for `id` (local copy when up to
date, otherwise the freshly installed one); `none` models the lookup or
installation failing.  The trace is checked before the parent is fetched and
the manifest's own id is added to it for the recursive call, exactly as
`inheritance_trace.insert` does. -/
def resolve (getEff : MCVersion → Option VersionManifest) :
    Nat → VersionManifest → List MCVersion → Except ResolveError VersionManifest
  | 0, _, _ => .error .outOfFuel
  | fuel + 1, m, trace =>
    match m.inheritsFrom with
    | none => .ok m
    | some parentId =>
      if m.id ∈ trace then .error (.circular (m.id :: trace))
      else
        match getEff parentId with
        | none => .error (.notFound parentId)
        | some parentM =>
          match resolve getEff fuel parentM (m.id :: trace) with
          | .error e => .error e
          | .ok resolvedParent => .ok (mergeInto resolvedParent m)

/-- Following the `inherits_from` chain from `m` under the trace `trace`
eventually revisits an identifier that is already on the trace: this is what
it means for the inheritance chain to contain a repeated version identifier
(a self-parent reaches the repeat after one step). -/
inductive ReachesCycle (getEff : MCVersion → Option VersionManifest) :
    VersionManifest → List MCVersion → Prop where
  | here {m : VersionManifest} {trace : List MCVersion} {p : MCVersion} :
      m.inheritsFrom = some p → m.id ∈ trace → ReachesCycle getEff m trace
  | step {m m' : VersionManifest} {trace : List MCVersion} {p : MCVersion} :
      m.inheritsFrom = some p → m.id ∉ trace → getEff p = some m' →
      ReachesCycle getEff m' (m.id :: trace) → ReachesCycle getEff m trace

/-! ## Verification strategies (`src/download_utils/downloadables/*.rs`; older
copies of the same bodies live in `src/download_utils/mod.rs`).  A download
attempt is modelled as a function of the bytes stored at the target path
(`none` when no file exists), the bytes the HTTP response would deliver, and
the hash function; it returns the attempt's verdict together with the bytes
left at the target path afterwards. -/

/-- Raw byte strings. -/
abbrev Bytes : Type := List Nat

/-- Download errors distinguished by the claims. -/
inductive DlError where
  | checksumMismatch (expected actual : Bytes)
  | etagMismatch (etag : List Char)
deriving DecidableEq

/-- `ChecksummedDownloadable::NULL_SHA1`, the all-zero sentinel meaning
"no usable remote checksum". -/
def nullSha1 : Bytes := List.replicate 20 0

/-- The network-and-write tail of `PreHashedDownloadable::download`
(`src/download_utils/downloadables/prehashed.rs` lines 100-125): the response
body is streamed into the target file while being hashed, and only afterwards
is the digest compared; on mismatch the error is returned with the file still
in place. -/
def prehashedFetch (sha1 : Bytes → Bytes) (expectedHash : Bytes) (resp : Bytes) :
    Except DlError Unit × Option Bytes :=
  let localHash := sha1 resp
  if localHash = expectedHash then (.ok (), some resp)
  else (.error (.checksumMismatch expectedHash localHash), some resp)

/-- `PreHashedDownloadable::download`
(`src/download_utils/downloadables/prehashed.rs` lines 85-125): a local file
whose hash already matches is kept; otherwise it is removed and the fetch
above runs. -/
def prehashedDownload (sha1 : Bytes → Bytes) (expectedHash : Bytes)
    (disk : Option Bytes) (resp : Bytes) : Except DlError Unit × Option Bytes :=
  match disk with
  | some content =>
    if sha1 content = expectedHash then (.ok (), some content)
    else prehashedFetch sha1 expectedHash resp
  | none => prehashedFetch sha1 expectedHash resp

/-- `ChecksummedDownloadable::download`
(`src/download_utils/downloadables/checksummed.rs` lines 89-139).
`remoteHash` is the sidecar `.sha1` document (`none` when unreachable, which
the code folds into the `NULL_SHA1` sentinel).  After a download the bytes are
written with `fs::write` before any comparison, so a mismatch leaves them in
place. -/
def checksummedDownload (sha1 : Bytes → Bytes) (remoteHash : Option Bytes)
    (disk : Option Bytes) (resp : Bytes) : Except DlError Unit × Option Bytes :=
  let localHash := disk.map sha1
  let expectedHash := remoteHash.getD nullSha1
  if expectedHash = nullSha1 ∧ disk.isSome then (.ok (), disk)
  else if some expectedHash = localHash then (.ok (), disk)
  else
    let newHash := sha1 resp
    if expectedHash = nullSha1 then (.ok (), some resp)
    else if expectedHash = newHash then (.ok (), some resp)
    else (.error (.checksumMismatch expectedHash newHash), some resp)

/-- UTF-8 encoding of one character, as used by `str::as_bytes`. -/
def charUtf8 (c : Char) : Bytes :=
  let n := c.toNat
  if n < 128 then [n]
  else if n < 2048 then [192 + n / 64, 128 + n % 64]
  else if n < 65536 then [224 + n / 4096, 128 + n / 64 % 64, 128 + n % 64]
  else [240 + n / 262144, 128 + n / 4096 % 64, 128 + n / 64 % 64, 128 + n % 64]

/-- UTF-8 byte string of a character list (`str::as_bytes`). -/
def utf8Bytes (cs : List Char) : Bytes := cs.flatMap charUtf8

/-- `EtagDownloadable::get_etag`
(`src/version_manager/downloader/downloadables/etag.rs` lines 36-43): a
missing (or non-ASCII) header becomes `"-"`; a value enclosed in double
quotes is stripped of them.  The result is `none` for the one-character
value `"` on which the slice `etag[1..len-1]` panics. -/
def getEtag (header : Option (List Char)) : Option (List Char) :=
  match header with
  | none => some ['-']
  | some cs =>
    if cs.head? = some '"' ∧ cs.getLast? = some '"' then
      if cs.length = 1 then none else some ((cs.drop 1).dropLast)
    else some cs

/-- `EtagDownloadable::download`
(`src/version_manager/downloader/downloadables/etag.rs` lines 88-113,
older copy at `src/download_utils/mod.rs` lines 426-456): the request is
always made, the body is written to the target, and then the quote-stripped
ETag decides the verdict — unconditional success when it contains `'-'`,
otherwise byte equality between the ETag string (`etag.as_bytes()`) and the
16-byte raw MD5 digest of the body.  `md5` is the digest function; the outer
`none` models the `get_etag` slice panic. -/
def etagDownload (md5 : Bytes → Bytes) (header : Option (List Char))
    (_disk : Option Bytes) (resp : Bytes) : Option (Except DlError Unit × Option Bytes) :=
  match getEtag header with
  | none => none
  | some etag =>
    let digest := md5 resp
    if etag.contains '-' then some (.ok (), some resp)
    else if utf8Bytes etag = digest then some (.ok (), some resp)
    else some (.error (.etagMismatch etag), some resp)

/-! ## Download job scheduler (`src/download_utils/download_job.rs`; a
reworked second implementation lives in
`src/version_manager/downloader/download_job.rs`). -/

/-- The life of one task inside the worker loop of `DownloadJob::start`
(`src/download_utils/download_job.rs` lines 109-146), sequentialised for a
single task: `outcomes i` tells whether the `(i+1)`-th invocation of
`download` succeeds, `attempts` is the task's attempt counter (incremented at
the start of every `download` call, `prehashed.rs` lines 85-88).  The guard
`get_attempts() > max_download_attempts` decides permanent failure before
each attempt; a failed attempt re-queues the task.  Returns
(task succeeded?, final recorded attempts = number of `download`
invocations). -/
def duJobRunTask (outcomes : Nat → Bool) (maxAttempts : Nat) (attempts : Nat) :
    Bool × Nat :=
  if h : attempts > maxAttempts then (false, attempts)
  else if outcomes attempts then (true, attempts + 1)
  else duJobRunTask outcomes maxAttempts (attempts + 1)
termination_by maxAttempts + 1 - attempts
decreasing_by omega

/-- Events accepted by the progress sink (`ProgressUpdate`,
`src/progress_reporter.rs` lines 52-58). -/
inductive SinkEvent where
  | clear
  | setAll (status : String) (progress total : Nat)
  | setStatus (status : String)
  | setProgress (n : Nat)
  | setTotal (n : Nat)
deriving DecidableEq

/-- The sequence of events `DownloadJob::start`
(`src/download_utils/download_job.rs` lines 92-159) sends to its progress
sink, with the events emitted while the workers run abstracted as
`taskEvents`: an initial `clear`, the run, then — only when the failures list
is empty — the final `clear`, because a non-empty failures list returns the
job error with `?` before the `clear` on line 157 is reached.  The boolean
result is `true` for `Ok(())`. -/
def duStartSinkTrace (taskEvents : List SinkEvent) (failuresNonEmpty : Bool) :
    List SinkEvent × Bool :=
  if failuresNonEmpty then (SinkEvent.clear :: taskEvents, false)
  else (SinkEvent.clear :: (taskEvents ++ [SinkEvent.clear]), true)

/-- The sink-event sequence of the reworked `DownloadJob::start`
(`src/version_manager/downloader/download_job.rs` lines 100-120): here the
final `clear` on line 113 precedes the success/failure decision, so it is
emitted on both exit paths. -/
def vmStartSinkTrace (taskEvents : List SinkEvent) (ignoreFailures anyFailures : Bool) :
    List SinkEvent × Bool :=
  (SinkEvent.clear :: (taskEvents ++ [SinkEvent.clear]), ignoreFailures || !anyFailures)

/-! ## Asset task construction (`src/versions/json/mod.rs`,
`src/version_manager/mod.rs`) -/

/-- An asset object (`AssetObject`, `src/versions/json/mod.rs` lines 475-486). -/
structure AssetObject where
  hash : Sha1Sum
  size : Nat
  reconstruct : Option Bool
  compressedHash : Option Sha1Sum
  compressedSize : Option Nat
deriving DecidableEq, Repr

/-- One `HashMap::insert` step keyed on the full `AssetObject` value (the
struct derives `Hash`/`PartialEq` over all fields); a later insertion with an
equal key replaces the earlier mapping. -/
def hashInsert (m : List (AssetObject × String)) (key : AssetObject) (value : String) :
    List (AssetObject × String) :=
  if m.any (fun q => decide (q.1 = key)) then
    m.map (fun q => if q.1 = key then (key, value) else q)
  else m ++ [(key, value)]

/-- `AssetIndex::get_unique_objects` (`src/versions/json/mod.rs`
lines 467-472): the name-to-object entries of the index are collected into a
map keyed by the object value.  `VersionManager::get_resource_downloadables`
(`src/version_manager/mod.rs` lines 279-286) then creates exactly one fetch
task per entry of this map. -/
def getUniqueObjects (objects : List (String × AssetObject)) :
    List (AssetObject × String) :=
  objects.foldl (fun acc p => hashInsert acc p.2 p.1) []

/-! ## Concrete fixtures used by the witnesses -/

/-- A minimal manifest without a parent and without a `mainClass`. -/
def plainManifest : VersionManifest :=
  { gameArguments := []
    jvmArguments := []
    minecraftArguments := none
    assetIndex := none
    assets := none
    compatibilityRules := []
    complianceLevel := none
    downloads := []
    id := .release 1 20 (some 1)
    inheritsFrom := none
    javaVersion := none
    libraries := []
    logging := []
    mainClass := none
    jar := none
    minimumLauncherVersion := none
    releaseTime := "2023-06-12T13:25:51+00:00"
    updatedTime := "2023-06-12T13:25:51+00:00"
    releaseType := .Release }

/-- A manifest that declares itself as its own parent. -/
def selfParentManifest : VersionManifest :=
  { plainManifest with id := .release 1 20 (some 1), inheritsFrom := some (.release 1 20 (some 1)) }

/-- A version store that resolves the self-parent's identifier to the
self-parent itself. -/
def selfParentStore : MCVersion → Option VersionManifest :=
  fun v => if v = MCVersion.release 1 20 (some 1) then some selfParentManifest else none

/-! ## Lemmas about decimal numerals -/

theorem string_mk_data (s : String) : String.mk s.data = s := rfl

theorem digitVal_lt_ten (c : Char) : digitVal c < 10 := by
  unfold digitVal
  repeat' split
  all_goals omega

theorem isDigit_enum (c : Char) (h : isDigit c = true) :
    c = '0' ∨ c = '1' ∨ c = '2' ∨ c = '3' ∨ c = '4' ∨ c = '5' ∨ c = '6' ∨ c = '7' ∨
      c = '8' ∨ c = '9' := by
  simp only [isDigit, Bool.or_eq_true, beq_iff_eq] at h
  tauto

theorem digitChar_digitVal (c : Char) (h : isDigit c = true) : digitChar (digitVal c) = c := by
  rcases isDigit_enum c h with h | h | h | h | h | h | h | h | h | h <;> subst h <;> decide

theorem digitVal_ne_zero (c : Char) (h : isDigit c = true) (h0 : c ≠ '0') : digitVal c ≠ 0 := by
  rcases isDigit_enum c h with h | h | h | h | h | h | h | h | h | h <;> subst h <;>
    first
    | exact absurd rfl h0
    | decide

theorem digitVal_zero_char (c : Char) (h : isDigit c = true) (hz : digitVal c = 0) : c = '0' := by
  by_cases h0 : c = '0'
  · exact h0
  · exact absurd hz (digitVal_ne_zero c h h0)

theorem parseDigits_foldl (cs : List Char) : ∀ a : Nat,
    cs.foldl (fun x c => x * 10 + digitVal c) a
      = a * 10 ^ cs.length + Nat.ofDigits 10 ((cs.map digitVal).reverse) := by
  induction cs with
  | nil => intro a; simp [Nat.ofDigits]
  | cons c t ih =>
    intro a
    simp only [List.foldl_cons, List.map_cons, List.reverse_cons, List.length_cons]
    rw [ih, Nat.ofDigits_append]
    simp only [List.length_reverse, List.length_map, Nat.ofDigits_singleton]
    ring

theorem parseDigits_eq_ofDigits (cs : List Char) :
    parseDigits cs = Nat.ofDigits 10 ((cs.map digitVal).reverse) := by
  simpa using parseDigits_foldl cs 0

theorem natDigitsRevFuel_eq : ∀ f n, n < f → natDigitsRevFuel f n = Nat.digits 10 n := by
  intro f
  induction f with
  | zero => intro n h; omega
  | succ f ih =>
    intro n h
    by_cases h0 : n = 0
    · subst h0; simp [natDigitsRevFuel]
    · have hpos : 0 < n := Nat.pos_of_ne_zero h0
      have hd : n / 10 < n := Nat.div_lt_self hpos (by norm_num)
      simp only [natDigitsRevFuel, if_neg h0]
      rw [ih (n / 10) (by omega), Nat.digits_def' (by norm_num : (1 : ℕ) < 10) hpos]

theorem natChars_eq_digits (n : Nat) (h : n ≠ 0) :
    natChars n = (Nat.digits 10 n).reverse.map digitChar := by
  rw [natChars, if_neg h, natDigitsRevFuel_eq (n + 1) n (Nat.lt_succ_self n)]

theorem natChars_parseDigits (cs : List Char) (h : canonicalDigits cs = true) :
    natChars (parseDigits cs) = cs := by
  unfold canonicalDigits digitsGroup at h
  simp only [Bool.and_eq_true, Bool.or_eq_true, Bool.not_eq_true', beq_iff_eq,
    List.all_eq_true] at h
  obtain ⟨⟨hne, hall⟩, hcanon⟩ := h
  have hnenil : cs ≠ [] := by
    intro hcs
    rw [hcs] at hne
    simp at hne
  rcases hcanon with hzero | hhead
  · subst hzero; decide
  · have hhead' : cs.head? ≠ some '0' := by
      intro hcontra
      rw [hcontra] at hhead
      simp at hhead
    obtain ⟨c0, t, rfl⟩ := List.exists_cons_of_ne_nil hnenil
    have hc0 : c0 ≠ '0' := by
      intro hc; exact hhead' (by rw [hc]; rfl)
    have hofd := parseDigits_eq_ofDigits (c0 :: t)
    have hl10 : ∀ d ∈ ((c0 :: t).map digitVal).reverse, d < 10 := by
      intro d hd
      rw [List.mem_reverse] at hd
      obtain ⟨c, _, rfl⟩ := List.mem_map.mp hd
      exact digitVal_lt_ten c
    have hlast? : (((c0 :: t).map digitVal).reverse).getLast? = some (digitVal c0) := by
      rw [List.getLast?_reverse]
      rfl
    have hlast : ∀ hln : ((c0 :: t).map digitVal).reverse ≠ [],
        (((c0 :: t).map digitVal).reverse).getLast hln ≠ 0 := by
      intro hln
      rw [List.getLast?_eq_getLast _ hln] at hlast?
      rw [Option.some.injEq] at hlast?
      rw [hlast?]
      exact digitVal_ne_zero c0 (hall c0 (List.mem_cons_self c0 t)) hc0
    have hdig := Nat.digits_ofDigits 10 (by norm_num) _ hl10 hlast
    have hn : Nat.digits 10 (parseDigits (c0 :: t)) = ((c0 :: t).map digitVal).reverse := by
      rw [hofd]; exact hdig
    have hne0 : parseDigits (c0 :: t) ≠ 0 := by
      intro h0
      rw [h0, Nat.digits_zero] at hn
      exact absurd hn.symm (by simp)
    rw [natChars_eq_digits _ hne0, hn, List.reverse_reverse, List.map_map]
    have hid : ∀ c ∈ c0 :: t, (digitChar ∘ digitVal) c = id c := by
      intro c hc
      exact digitChar_digitVal c (hall c hc)
    rw [List.map_congr_left hid, List.map_id]

theorem natChars_lt_ten (d : Nat) (h : d < 10) : natChars d = [digitChar d] := by
  interval_cases d <;> decide

theorem pad2_parseDigits (y1 y2 : Char) (h1 : isDigit y1 = true) (h2 : isDigit y2 = true) :
    pad2 (parseDigits [y1, y2]) = [y1, y2] := by
  have hv : parseDigits [y1, y2] = digitVal y1 * 10 + digitVal y2 := by
    simp [parseDigits]
  have h1' : digitVal y1 < 10 := digitVal_lt_ten y1
  have h2' : digitVal y2 < 10 := digitVal_lt_ten y2
  by_cases hz : digitVal y1 = 0
  · have hy1 : y1 = '0' := digitVal_zero_char y1 h1 hz
    rw [hv, hz, pad2, if_pos (by omega)]
    rw [natChars_lt_ten _ (by omega)]
    rw [Nat.zero_mul, Nat.zero_add, digitChar_digitVal y2 h2, hy1]
  · rw [hv, pad2, if_neg (by omega)]
    have hne : digitVal y1 * 10 + digitVal y2 ≠ 0 := by omega
    rw [natChars_eq_digits _ hne]
    have hdig : Nat.digits 10 (digitVal y1 * 10 + digitVal y2) = [digitVal y2, digitVal y1] := by
      rw [Nat.digits_def' (by norm_num : (1 : ℕ) < 10) (by omega)]
      have hm : (digitVal y1 * 10 + digitVal y2) % 10 = digitVal y2 := by omega
      have hd : (digitVal y1 * 10 + digitVal y2) / 10 = digitVal y1 := by omega
      rw [hm, hd, Nat.digits_def' (by norm_num : (1 : ℕ) < 10) (by omega),
        Nat.mod_eq_of_lt h1', Nat.div_eq_of_lt h1', Nat.digits_zero]
    rw [hdig]
    simp only [List.reverse_cons, List.reverse_nil, List.nil_append, List.cons_append,
      List.map_cons, List.map_nil]
    rw [digitChar_digitVal y1 h1, digitChar_digitVal y2 h2]

/-! ## Lemmas about the shape matchers -/

theorem splitDot_ne_nil (cs : List Char) : splitDot cs ≠ [] := by
  intro hnil
  cases cs with
  | nil => simp [splitDot] at hnil
  | cons c rest =>
    simp only [splitDot] at hnil
    rcases hr : splitDot rest with _ | ⟨g, gs⟩ <;> rw [hr] at hnil
    · simp at hnil
    · dsimp only at hnil
      split at hnil <;> simp at hnil

theorem joinDot_splitDot (cs : List Char) : joinDot (splitDot cs) = cs := by
  induction cs with
  | nil => rfl
  | cons c rest ih =>
    simp only [splitDot]
    rcases h : splitDot rest with _ | ⟨g, gs⟩
    · exact absurd h (splitDot_ne_nil rest)
    · rw [h] at ih
      dsimp only
      by_cases hc : c = '.'
      · rw [if_pos hc, hc]
        simp only [joinDot, List.nil_append]
        rw [ih]
      · rw [if_neg hc]
        cases gs with
        | nil =>
          simp only [joinDot] at ih ⊢
          rw [ih]
        | cons g2 gs2 =>
          simp only [joinDot, List.cons_append] at ih ⊢
          rw [ih]

theorem matchRelease_eq {cs a b : List Char} {p : Option (List Char)}
    (h : matchRelease cs = some (a, b, p)) :
    cs = a ++ '.' :: b ++ patchChars p ∧
    digitsGroup a = true ∧ digitsGroup b = true ∧
    ∀ c, p = some c → digitsGroup c = true := by
  have hjoin := joinDot_splitDot cs
  unfold matchRelease at h
  cases l : splitDot cs with
  | nil => rw [l] at h; exact absurd h (by simp)
  | cons g1 t1 =>
    cases t1 with
    | nil => rw [l] at h; exact absurd h (by simp)
    | cons g2 t2 =>
      cases t2 with
      | nil =>
        rw [l] at h hjoin
        simp only [joinDot] at hjoin
        dsimp only at h
        split at h
        case isTrue hcond =>
          rw [Bool.and_eq_true] at hcond
          rw [Option.some.injEq, Prod.mk.injEq, Prod.mk.injEq] at h
          obtain ⟨ha, hb, hp⟩ := h
          subst ha; subst hb; subst hp
          refine ⟨?_, hcond.1, hcond.2, by intro c hc; cases hc⟩
          rw [← hjoin]
          simp [patchChars]
        case isFalse => cases h
      | cons g3 t3 =>
        cases t3 with
        | nil =>
          rw [l] at h hjoin
          simp only [joinDot] at hjoin
          dsimp only at h
          split at h
          case isTrue hcond =>
            rw [Bool.and_eq_true, Bool.and_eq_true] at hcond
            rw [Option.some.injEq, Prod.mk.injEq, Prod.mk.injEq] at h
            obtain ⟨ha, hb, hp⟩ := h
            subst ha; subst hb; subst hp
            refine ⟨?_, hcond.1.1, hcond.1.2, ?_⟩
            · rw [← hjoin]
              simp [patchChars]
            · intro c hc
              rw [Option.some.injEq] at hc
              rw [← hc]
              exact hcond.2
          case isFalse => cases h
        | cons g4 t4 => rw [l] at h; exact absurd h (by simp)

theorem matchSnapshot_eq {cs : List Char} {y1 y2 w1 w2 r : Char}
    (h : matchSnapshot cs = some (y1, y2, w1, w2, r)) :
    cs = [y1, y2, 'w', w1, w2, r] ∧ isDigit y1 = true ∧ isDigit y2 = true ∧
      isDigit w1 = true ∧ isDigit w2 = true := by
  rcases cs with _ | ⟨c1, _ | ⟨c2, _ | ⟨c3, _ | ⟨c4, _ | ⟨c5, _ | ⟨c6, _ | ⟨c7, t⟩⟩⟩⟩⟩⟩⟩
  all_goals simp only [matchSnapshot] at h
  all_goals try exact Option.noConfusion h
  split at h
  case isTrue hcond =>
    simp only [Bool.and_eq_true, decide_eq_true_eq, Bool.not_eq_true', decide_eq_false_iff_not]
      at hcond
    obtain ⟨⟨⟨⟨⟨hd1, hd2⟩, hw⟩, hd3⟩, hd4⟩, _⟩ := hcond
    rw [Option.some.injEq, Prod.mk.injEq, Prod.mk.injEq, Prod.mk.injEq, Prod.mk.injEq] at h
    obtain ⟨e1, e2, e3, e4, e5⟩ := h
    subst e1; subst e2; subst e3; subst e4; subst e5; subst hw
    exact ⟨rfl, hd1, hd2, hd3, hd4⟩
  case isFalse => cases h

theorem matchSuffixed_eq {sep cs a b num : List Char} {p : Option (List Char)}
    (h : matchSuffixed sep cs = some (a, b, p, num)) :
    cs = (a ++ '.' :: b ++ patchChars p) ++ sep ++ num ∧
    digitsGroup a = true ∧ digitsGroup b = true ∧
    (∀ c, p = some c → digitsGroup c = true) ∧ digitsGroup num = true := by
  unfold matchSuffixed at h
  split at h
  case isTrue htake =>
    split at h
    case isTrue hnum =>
      cases hm : matchRelease (cs.takeWhile isVerChar) with
      | none => rw [hm] at h; cases h
      | some t =>
        obtain ⟨a', b', p'⟩ := t
        rw [hm] at h
        dsimp only at h
        rw [Option.some.injEq, Prod.mk.injEq, Prod.mk.injEq, Prod.mk.injEq] at h
        obtain ⟨ha, hb, hp, hn⟩ := h
        subst ha; subst hb; subst hp
        obtain ⟨hpre, hga, hgb, hgp⟩ := matchRelease_eq hm
        refine ⟨?_, hga, hgb, hgp, by rw [hn] at hnum; exact hnum⟩
        rw [← hpre]
        have hsplit : cs.takeWhile isVerChar ++ cs.dropWhile isVerChar = cs :=
      List.takeWhile_append_dropWhile isVerChar cs
        have hrest : cs.dropWhile isVerChar
            = (cs.dropWhile isVerChar).take sep.length ++ (cs.dropWhile isVerChar).drop sep.length :=
          (List.take_append_drop _ _).symm
        rw [htake, hn] at hrest
        rw [List.append_assoc, ← hrest, hsplit]
    case isFalse => cases h
  case isFalse => cases h

theorem parseI32_eq {cs : List Char} {n : Nat} (h : parseI32 cs = some n) :
    parseDigits cs = n := by
  unfold parseI32 at h
  split at h
  · exact Option.some.inj h
  · cases h

theorem relChars_eq (a b : List Char) (p : Option (List Char)) (mj mi : Nat)
    (pv : Option Nat) (hA : parseI32 a = some mj) (hB : parseI32 b = some mi)
    (hP : parseOptI32 p = some pv) (ca : canonicalDigits a = true)
    (cb : canonicalDigits b = true)
    (cp : ∀ c, p = some c → canonicalDigits c = true) :
    relChars mj mi pv = a ++ '.' :: b ++ patchChars p := by
  have hmj := parseI32_eq hA
  have hmi := parseI32_eq hB
  cases p with
  | none =>
    have hpv : pv = none := (Option.some.inj hP).symm
    subst hpv
    unfold relChars patchChars
    dsimp only
    rw [← hmj, ← hmi, natChars_parseDigits a ca, natChars_parseDigits b cb]
  | some c =>
    dsimp only [parseOptI32] at hP
    cases hC : parseI32 c with
    | none => rw [hC] at hP; cases hP
    | some pc =>
      rw [hC] at hP
      dsimp only [Option.map] at hP
      have hpv : pv = some pc := (Option.some.inj hP).symm
      subst hpv
      have hpc := parseI32_eq hC
      unfold relChars patchChars
      dsimp only
      rw [← hmj, ← hmi, ← hpc, natChars_parseDigits a ca, natChars_parseDigits b cb,
        natChars_parseDigits c (cp c rfl)]

theorem suffixed_roundtrip (sep cs a b num : List Char) (p : Option (List Char))
    (mj mi pr : Nat) (pv : Option Nat)
    (hm : matchSuffixed sep cs = some (a, b, p, num))
    (hA : parseI32 a = some mj) (hB : parseI32 b = some mi)
    (hP : parseOptI32 p = some pv) (hN : parseI32 num = some pr)
    (ca : canonicalDigits a = true) (cb : canonicalDigits b = true)
    (cp : ∀ c, p = some c → canonicalDigits c = true)
    (cn : canonicalDigits num = true) :
    relChars mj mi pv ++ sep ++ natChars pr = cs := by
  obtain ⟨hs, _, _, _, _⟩ := matchSuffixed_eq hm
  have hpr := parseI32_eq hN
  rw [relChars_eq a b p mj mi pv hA hB hP ca cb cp, ← hpr,
    natChars_parseDigits num cn, hs]

/-- C7.  The round-trip claim as stated fails (see the counterexample below):
the parser collapses numerals with redundant leading zeros.  Amended claim:
for every identifier string accepted by the version-id parser in which every
captured numeric component is written in canonical decimal form (no redundant
leading zero), formatting the parsed value reproduces the original string
exactly. -/
theorem mc_version_roundtrip (s : String) (v : MCVersion)
    (hv : mcFrom s = some v) (hc : canonicalComponents s = true) :
    mcToString v = s := by
  unfold mcFrom at hv
  unfold canonicalComponents at hc
  cases hrel : matchRelease s.data with
  | some t =>
    obtain ⟨a, b, p⟩ := t
    rw [hrel] at hv hc
    dsimp only at hv hc
    rcases hA : parseI32 a with _ | mj <;> rcases hB : parseI32 b with _ | mi <;>
      rcases hP : parseOptI32 p with _ | pv <;> rw [hA, hB, hP] at hv <;> dsimp only at hv
    all_goals try exact Option.noConfusion hv
    rw [Option.some.injEq] at hv
    subst hv
    rw [Bool.and_eq_true, Bool.and_eq_true] at hc
    obtain ⟨⟨ca, cb⟩, cp'⟩ := hc
    have cp : ∀ c, p = some c → canonicalDigits c = true := by
      intro c hcp
      rw [hcp] at cp'
      simpa using cp'
    obtain ⟨hs, _, _, _⟩ := matchRelease_eq hrel
    show (⟨relChars mj mi pv⟩ : String) = s
    rw [relChars_eq a b p mj mi pv hA hB hP ca cb cp, ← hs, string_mk_data]
  | none =>
    rw [hrel] at hv hc
    cases hsnap : matchSnapshot s.data with
    | some t =>
      obtain ⟨y1, y2, w1, w2, r⟩ := t
      rw [hsnap] at hv
      dsimp only at hv
      rw [Option.some.injEq] at hv
      subst hv
      obtain ⟨hs, hd1, hd2, hd3, hd4⟩ := matchSnapshot_eq hsnap
      show (⟨pad2 (parseDigits [y1, y2]) ++ 'w' :: pad2 (parseDigits [w1, w2]) ++ [r]⟩ : String) = s
      rw [pad2_parseDigits y1 y2 hd1 hd2, pad2_parseDigits w1 w2 hd3 hd4, ← string_mk_data s]
      rw [hs]
      rfl
    | none =>
      rw [hsnap] at hv hc
      cases hnew : matchSuffixed preReleaseNewSep s.data with
      | some t =>
        obtain ⟨a, b, p, num⟩ := t
        rw [hnew] at hv hc
        dsimp only at hv hc
        rcases hA : parseI32 a with _ | mj <;> rcases hB : parseI32 b with _ | mi <;>
          rcases hP : parseOptI32 p with _ | pv <;> rcases hN : parseI32 num with _ | pr <;>
          rw [hA, hB, hP, hN] at hv <;> dsimp only at hv
        all_goals try exact Option.noConfusion hv
        rw [Option.some.injEq] at hv
        subst hv
        rw [Bool.and_eq_true, Bool.and_eq_true, Bool.and_eq_true] at hc
        obtain ⟨⟨⟨ca, cb⟩, cp'⟩, cn⟩ := hc
        have cp : ∀ c, p = some c → canonicalDigits c = true := by
          intro c hcp
          rw [hcp] at cp'
          simpa using cp'
        show (⟨relChars mj mi pv ++ preReleaseNewSep ++ natChars pr⟩ : String) = s
        rw [suffixed_roundtrip preReleaseNewSep s.data a b num p mj mi pr pv hnew hA hB hP hN
          ca cb cp cn, string_mk_data]
      | none =>
        rw [hnew] at hv hc
        cases hold : matchSuffixed preReleaseOldSep s.data with
        | some t =>
          obtain ⟨a, b, p, num⟩ := t
          rw [hold] at hv hc
          dsimp only at hv hc
          rcases hA : parseI32 a with _ | mj <;> rcases hB : parseI32 b with _ | mi <;>
            rcases hP : parseOptI32 p with _ | pv <;> rcases hN : parseI32 num with _ | pr <;>
            rw [hA, hB, hP, hN] at hv <;> dsimp only at hv
          all_goals try exact Option.noConfusion hv
          rw [Option.some.injEq] at hv
          subst hv
          rw [Bool.and_eq_true, Bool.and_eq_true, Bool.and_eq_true] at hc
          obtain ⟨⟨⟨ca, cb⟩, cp'⟩, cn⟩ := hc
          have cp : ∀ c, p = some c → canonicalDigits c = true := by
            intro c hcp
            rw [hcp] at cp'
            simpa using cp'
          show (⟨relChars mj mi pv ++ preReleaseOldSep ++ natChars pr⟩ : String) = s
          rw [suffixed_roundtrip preReleaseOldSep s.data a b num p mj mi pr pv hold hA hB hP hN
            ca cb cp cn, string_mk_data]
        | none =>
          rw [hold] at hv hc
          cases hrc : matchSuffixed releaseCandidateSep s.data with
          | some t =>
            obtain ⟨a, b, p, num⟩ := t
            rw [hrc] at hv hc
            dsimp only at hv hc
            rcases hA : parseI32 a with _ | mj <;> rcases hB : parseI32 b with _ | mi <;>
              rcases hP : parseOptI32 p with _ | pv <;> rcases hN : parseI32 num with _ | pr <;>
              rw [hA, hB, hP, hN] at hv <;> dsimp only at hv
            all_goals try exact Option.noConfusion hv
            rw [Option.some.injEq] at hv
            subst hv
            rw [Bool.and_eq_true, Bool.and_eq_true, Bool.and_eq_true] at hc
            obtain ⟨⟨⟨ca, cb⟩, cp'⟩, cn⟩ := hc
            have cp : ∀ c, p = some c → canonicalDigits c = true := by
              intro c hcp
              rw [hcp] at cp'
              simpa using cp'
            show (⟨relChars mj mi pv ++ releaseCandidateSep ++ natChars pr⟩ : String) = s
            rw [suffixed_roundtrip releaseCandidateSep s.data a b num p mj mi pr pv hrc hA hB
              hP hN ca cb cp cn, string_mk_data]
          | none =>
            rw [hrc] at hv
            dsimp only at hv
            rw [Option.some.injEq] at hv
            subst hv
            rfl

/-- C7, counterexample to the claim as stated: `"1.02"` is accepted by the
release regex and parses to `Release(1, 2, None)`, but formatting that value
yields `"1.2"`, not the original string. -/
theorem mc_version_roundtrip_cx :
    mcFrom "1.02" = some (MCVersion.release 1 2 none) ∧
      mcToString (MCVersion.release 1 2 none) ≠ "1.02" := by
  constructor
  · decide
  · decide

/-- C7, witness: the canonical identifier `"1.20.1"` round-trips through the
amended theorem. -/
theorem mc_version_roundtrip_witness :
    mcFrom "1.20.1" = some (MCVersion.release 1 20 (some 1)) ∧
      mcToString (MCVersion.release 1 20 (some 1)) = "1.20.1" :=
  ⟨by decide,
    mc_version_roundtrip "1.20.1" (MCVersion.release 1 20 (some 1)) (by decide) (by decide)⟩

/-! ## Inheritance resolution: cycle detection and the partial main-class
accessor -/

theorem resolve_never_ok (getEff : MCVersion → Option VersionManifest)
    {m : VersionManifest} {trace : List MCVersion} (h : ReachesCycle getEff m trace) :
    ∀ fuel r, resolve getEff fuel m trace ≠ .ok r := by
  induction h with
  | @here m trace p hinh hmem =>
    intro fuel r
    cases fuel with
    | zero => simp [resolve]
    | succ f =>
      simp only [resolve]
      rw [hinh]
      dsimp only
      rw [if_pos hmem]
      simp
  | @step m m' trace p hinh hmem hget hrec ih =>
    intro fuel r
    cases fuel with
    | zero => simp [resolve]
    | succ f =>
      simp only [resolve]
      rw [hinh]
      dsimp only
      rw [if_neg hmem, hget]
      dsimp only
      cases hres : resolve getEff f m' (m.id :: trace) with
      | error e => simp
      | ok rp => exact absurd hres (ih f rp)

theorem resolve_cycle_error (getEff : MCVersion → Option VersionManifest)
    {m : VersionManifest} {trace : List MCVersion} (h : ReachesCycle getEff m trace) :
    ∃ N, ∀ fuel, N ≤ fuel → ∃ chain,
      resolve getEff fuel m trace = .error (.circular chain) := by
  induction h with
  | @here m trace p hinh hmem =>
    refine ⟨1, ?_⟩
    intro fuel hf
    obtain ⟨f, rfl⟩ : ∃ f, fuel = f + 1 := ⟨fuel - 1, by omega⟩
    refine ⟨m.id :: trace, ?_⟩
    simp only [resolve]
    rw [hinh]
    dsimp only
    rw [if_pos hmem]
  | @step m m' trace p hinh hmem hget hrec ih =>
    obtain ⟨N, hN⟩ := ih
    refine ⟨N + 1, ?_⟩
    intro fuel hf
    obtain ⟨f, rfl⟩ : ∃ f, fuel = f + 1 := ⟨fuel - 1, by omega⟩
    obtain ⟨chain, hchain⟩ := hN f (by omega)
    refine ⟨chain, ?_⟩
    simp only [resolve]
    rw [hinh]
    dsimp only
    rw [if_neg hmem, hget]
    dsimp only
    rw [hchain]

/-- C1.  For every version store and every manifest whose inheritance chain
revisits an identifier already on the (initially empty) trace — including a
manifest that declares itself as its own parent — `resolve` never returns a
merged manifest at any recursion depth, and from some depth on it always
fails with the circular-dependency error carrying the chain. -/
theorem resolve_cycle_detected (getEff : MCVersion → Option VersionManifest)
    (m : VersionManifest) (h : ReachesCycle getEff m []) :
    (∀ fuel r, resolve getEff fuel m [] ≠ .ok r) ∧
    ∃ N, ∀ fuel, N ≤ fuel → ∃ chain,
      resolve getEff fuel m [] = .error (.circular chain) :=
  ⟨resolve_never_ok getEff h, resolve_cycle_error getEff h⟩

/-- C1, witness: a self-parent manifest in a one-entry store is rejected. -/
theorem resolve_cycle_detected_witness :
    (∀ fuel r, resolve selfParentStore fuel selfParentManifest [] ≠ .ok r) ∧
    ∃ N, ∀ fuel, N ≤ fuel → ∃ chain,
      resolve selfParentStore fuel selfParentManifest [] = .error (.circular chain) :=
  resolve_cycle_detected selfParentStore selfParentManifest
    (@ReachesCycle.step selfParentStore selfParentManifest selfParentManifest []
      (MCVersion.release 1 20 (some 1)) rfl (by simp) (by simp [selfParentStore])
      (@ReachesCycle.here selfParentStore selfParentManifest
        [selfParentManifest.id] (MCVersion.release 1 20 (some 1)) rfl (by simp)))

/-- C9.  `get_main_class` is partial at the public interface: the data model
permits a manifest without `main_class` (the witness exhibits one), the merge
step of resolution leaves `main_class` unset when neither the resolved parent
nor the child sets it, and calling `get_main_class` on such a manifest hits
the `unwrap` panic (modelled by `.error ()`) instead of returning an option
or an error value. -/
theorem main_class_unset_panics :
    (∀ m : VersionManifest, m.mainClass = none → m.getMainClass = .error ()) ∧
    ∀ p c : VersionManifest, p.mainClass = none → c.mainClass = none →
      (mergeInto p c).mainClass = none ∧ (mergeInto p c).getMainClass = .error () := by
  have hget : ∀ m : VersionManifest, m.mainClass = none → m.getMainClass = .error () := by
    intro m hm
    unfold VersionManifest.getMainClass
    rw [hm]
  refine ⟨hget, ?_⟩
  intro p c hp hc
  have hmerge : (mergeInto p c).mainClass = none := by
    unfold mergeInto
    dsimp only
    rw [hc]
    dsimp only
    exact hp
  exact ⟨hmerge, hget _ hmerge⟩

/-- C9, witness: a concrete parentless manifest without `main_class`, and the
merge of two such manifests, both panic in `get_main_class`. -/
theorem main_class_unset_panics_witness :
    plainManifest.getMainClass = .error () ∧
      (mergeInto plainManifest plainManifest).getMainClass = .error () :=
  ⟨main_class_unset_panics.1 plainManifest rfl,
    (main_class_unset_panics.2 plainManifest plainManifest rfl rfl).2⟩

/-! ## OS restrictions with invalid version regexes -/

/-- C10.  When the `version` field of an OS restriction does not compile as a
regular expression, `is_current_operating_system` raises no error and behaves
exactly as if the version constraint were absent: the restriction can still
match the current platform on name and architecture alone. -/
theorem invalid_regex_version_ignored (env : Platform) (r : OsRestriction) (v : String)
    (hv : r.version = some v) (hc : env.regexNew v = none) :
    OsRestriction.isCurrentOperatingSystem env r
      = OsRestriction.isCurrentOperatingSystem env { r with version := none } := by
  unfold OsRestriction.isCurrentOperatingSystem
  dsimp only
  rw [hv]
  simp [Option.any, hc]

/-- C10, witness: a restriction whose version field is the invalid regex
`"("` matches exactly as the same restriction without a version field. -/
theorem invalid_regex_version_ignored_witness :
    OsRestriction.isCurrentOperatingSystem
        ⟨OperatingSystem.Linux, "x64", "6.1", fun _ => none⟩
        ⟨some OperatingSystem.Linux, none, some "("⟩
      = OsRestriction.isCurrentOperatingSystem
        ⟨OperatingSystem.Linux, "x64", "6.1", fun _ => none⟩
        ⟨some OperatingSystem.Linux, none, none⟩ :=
  invalid_regex_version_ignored
    ⟨OperatingSystem.Linux, "x64", "6.1", fun _ => none⟩
    ⟨some OperatingSystem.Linux, none, some "("⟩ "(" rfl rfl

/-! ## Rule evaluation -/

theorem getAppliedAction_action (env : Platform) (fm : Option EnvironmentFeatures) (r : Rule)
    (a : RuleAction) (h : r.getAppliedAction env fm = some a) : a = r.action := by
  unfold Rule.getAppliedAction at h
  split at h
  · cases h
  · cases hf : r.features with
    | none =>
      rw [hf] at h
      dsimp only at h
      exact (Option.some.inj h).symm
    | some feats =>
      rw [hf] at h
      cases fm with
      | none => dsimp only at h; cases h
      | some matcher =>
        dsimp only at h
        split at h
        · exact (Option.some.inj h).symm
        · cases h

theorem getAppliedAction_isSome (env : Platform) (fm : EnvironmentFeatures) (r : Rule) :
    (r.getAppliedAction env (some fm)).isSome = ruleMatchesSpec env fm r := by
  rcases ho : r.os with _ | o
  all_goals rcases hf : r.features with _ | feats
  all_goals try cases hcur : OsRestriction.isCurrentOperatingSystem env o
  all_goals simp [Rule.getAppliedAction, ruleMatchesSpec, ho, hf, *]
  all_goals try (cases hall : feats.all (fun p => hasFeature fm p.1 p.2) <;> simp [hall])

theorem foldl_lastMatch (env : Platform) (fm : Option EnvironmentFeatures) :
    ∀ (rules : List Rule) (init : RuleAction),
      rules.foldl (fun action r =>
        match r.getAppliedAction env fm with
        | some a => a
        | none => action) init
      = match (rules.filter (fun r => (r.getAppliedAction env fm).isSome)).getLast? with
        | some r => r.action
        | none => init := by
  intro rules
  induction rules with
  | nil => intro init; rfl
  | cons r t ih =>
    intro init
    rw [List.foldl_cons]
    cases hr : r.getAppliedAction env fm with
    | none =>
      dsimp only
      rw [ih init]
      have hpred : ((r.getAppliedAction env fm).isSome) = false := by rw [hr]; rfl
      rw [List.filter_cons, hpred]
      rw [if_neg Bool.false_ne_true]
    | some a =>
      dsimp only
      rw [ih a]
      have hpred : ((r.getAppliedAction env fm).isSome) = true := by rw [hr]; rfl
      rw [List.filter_cons, hpred]
      rw [if_pos rfl]
      cases hft : t.filter (fun r => (r.getAppliedAction env fm).isSome) with
      | nil =>
        simp only [List.getLast?_nil, List.getLast?_singleton]
        exact getAppliedAction_action env fm r a hr
      | cons q l =>
        rw [List.getLast?_cons_cons]
        cases hq : (q :: l).getLast? with
        | none => exact absurd hq (by simp)
        | some x => rfl

/-- C2.  The rule-evaluation contract: the empty rule list evaluates to
`Allow`; a rule is applied exactly when its OS restriction (if any) accepts
the current platform and every required feature key is present in the
feature set with exactly the required value (`ruleMatchesSpec` states this in
the spec's words, and `get_applied_action` applies precisely to those rules);
a non-empty list in which no rule matches evaluates to `Disallow`; and
otherwise the result is the action of the last matching rule in declaration
order. -/
theorem rule_evaluation_contract (env : Platform) (fm : EnvironmentFeatures)
    (rules : List Rule) :
    evaluate env (some fm) [] = RuleAction.Allow ∧
    (∀ r : Rule, (r.getAppliedAction env (some fm)).isSome = ruleMatchesSpec env fm r) ∧
    (rules ≠ [] → rules.filter (fun r => ruleMatchesSpec env fm r) = [] →
      evaluate env (some fm) rules = RuleAction.Disallow) ∧
    (∀ r : Rule, (rules.filter (fun r => ruleMatchesSpec env fm r)).getLast? = some r →
      evaluate env (some fm) rules = r.action) := by
  have hfe : rules.filter (fun r => ruleMatchesSpec env fm r)
      = rules.filter (fun r => (r.getAppliedAction env (some fm)).isSome) := by
    apply List.filter_congr
    intro r _
    rw [getAppliedAction_isSome]
  refine ⟨rfl, fun r => getAppliedAction_isSome env fm r, ?_, ?_⟩
  · intro hne hfilter
    unfold evaluate
    rw [if_neg (by simpa using hne)]
    unfold evaluateRules
    rw [foldl_lastMatch env (some fm) rules RuleAction.Disallow, ← hfe, hfilter]
    rfl
  · intro r hlast
    have hne : rules ≠ [] := by
      intro hcontra
      subst hcontra
      simp at hlast
    unfold evaluate
    rw [if_neg (by simpa using hne)]
    unfold evaluateRules
    rw [foldl_lastMatch env (some fm) rules RuleAction.Disallow, ← hfe, hlast]

/-- C2, witness: with the demo-mode feature set, a general `Disallow` rule
followed by a matching feature-gated `Allow` rule evaluates to the action of
the last matching rule. -/
theorem rule_evaluation_contract_witness :
    evaluate ⟨OperatingSystem.Linux, "x64", "6.1", fun _ => none⟩
        (some [(RuleFeatureType.IsDemoUser, JsonValue.bool true)])
        [⟨RuleAction.Disallow, none, none⟩,
          ⟨RuleAction.Allow, some [(RuleFeatureType.IsDemoUser, JsonValue.bool true)], none⟩]
      = RuleAction.Allow :=
  (rule_evaluation_contract ⟨OperatingSystem.Linux, "x64", "6.1", fun _ => none⟩
      [(RuleFeatureType.IsDemoUser, JsonValue.bool true)]
      [⟨RuleAction.Disallow, none, none⟩,
        ⟨RuleAction.Allow, some [(RuleFeatureType.IsDemoUser, JsonValue.bool true)], none⟩]).2.2.2
    ⟨RuleAction.Allow, some [(RuleFeatureType.IsDemoUser, JsonValue.bool true)], none⟩
    (by decide)

/-! ## Verification strategies: what a failed attempt leaves on disk -/

theorem prehashedFetch_snd (sha1 : Bytes → Bytes) (expectedHash resp : Bytes) :
    (prehashedFetch sha1 expectedHash resp).2 = some resp := by
  unfold prehashedFetch
  dsimp only
  split <;> rfl

theorem prehashedDownload_mismatch (sha1 : Bytes → Bytes) (expectedHash : Bytes)
    (disk : Option Bytes) (resp : Bytes) (e : DlError)
    (h : (prehashedDownload sha1 expectedHash disk resp).1 = .error e) :
    (prehashedDownload sha1 expectedHash disk resp).2 = some resp := by
  unfold prehashedDownload at h ⊢
  cases disk with
  | none => exact prehashedFetch_snd sha1 expectedHash resp
  | some content =>
    dsimp only at h ⊢
    by_cases hcond : sha1 content = expectedHash
    · rw [if_pos hcond] at h
      simp at h
    · rw [if_neg hcond]
      exact prehashedFetch_snd sha1 expectedHash resp

theorem checksummedDownload_mismatch (sha1 : Bytes → Bytes) (remoteHash : Option Bytes)
    (disk : Option Bytes) (resp : Bytes) (e : DlError)
    (h : (checksummedDownload sha1 remoteHash disk resp).1 = .error e) :
    (checksummedDownload sha1 remoteHash disk resp).2 = some resp := by
  unfold checksummedDownload at h ⊢
  dsimp only at h ⊢
  by_cases hc1 : remoteHash.getD nullSha1 = nullSha1 ∧ disk.isSome = true
  · rw [if_pos hc1] at h
    simp at h
  · rw [if_neg hc1] at h ⊢
    by_cases hc2 : some (remoteHash.getD nullSha1) = Option.map sha1 disk
    · rw [if_pos hc2] at h
      simp at h
    · rw [if_neg hc2] at h ⊢
      by_cases hc3 : remoteHash.getD nullSha1 = nullSha1
      · rw [if_pos hc3]
      · rw [if_neg hc3] at h ⊢
        by_cases hc4 : remoteHash.getD nullSha1 = sha1 resp
        · rw [if_pos hc4]
        · rw [if_neg hc4]

/-- C3, counterexample to the claim as stated: for both the pre-hashed and the
remote-checksum strategies, an attempt that ends with a checksum mismatch
returns the mismatch error with the downloaded bytes still stored at the
target path (here: no local file, expected digest `[1]`, toy hash =
byte-length, response `[7, 7]`). -/
theorem checksum_mismatch_leaves_file_cx :
    (prehashedDownload (fun b => [b.length]) [1] none [7, 7]).1
        = .error (.checksumMismatch [1] [2]) ∧
    (prehashedDownload (fun b => [b.length]) [1] none [7, 7]).2 = some [7, 7] ∧
    (checksummedDownload (fun b => [b.length]) (some [1]) none [7, 7]).1
        = .error (.checksumMismatch [1] [2]) ∧
    (checksummedDownload (fun b => [b.length]) (some [1]) none [7, 7]).2 = some [7, 7] := by
  refine ⟨rfl, rfl, rfl, rfl⟩

/-- C3, amended claim: when a pre-hashed or remote-checksum attempt ends with
a checksum mismatch, the attempt returns an error, but the mismatching
downloaded bytes ARE left on disk at the target path — the file is written
before the final digest comparison and is not removed when the comparison
fails (the stale file is only detected and removed at the start of the next
attempt of the pre-hashed strategy). -/
theorem checksum_mismatch_leaves_file (sha1 : Bytes → Bytes) (expectedHash : Bytes)
    (remoteHash : Option Bytes) (disk : Option Bytes) (resp : Bytes) (e e' : DlError) :
    ((prehashedDownload sha1 expectedHash disk resp).1 = .error e →
      (prehashedDownload sha1 expectedHash disk resp).2 = some resp) ∧
    ((checksummedDownload sha1 remoteHash disk resp).1 = .error e' →
      (checksummedDownload sha1 remoteHash disk resp).2 = some resp) :=
  ⟨prehashedDownload_mismatch sha1 expectedHash disk resp e,
    checksummedDownload_mismatch sha1 remoteHash disk resp e'⟩

/-- C3, witness: the amended claim applied at the counterexample input. -/
theorem checksum_mismatch_leaves_file_witness :
    (prehashedDownload (fun b => [b.length]) [1] none [7, 7]).2 = some [7, 7] ∧
    (checksummedDownload (fun b => [b.length]) (some [1]) none [7, 7]).2 = some [7, 7] :=
  ⟨(checksum_mismatch_leaves_file (fun b => [b.length]) [1] (some [1]) none [7, 7]
      (.checksumMismatch [1] [2]) (.checksumMismatch [1] [2])).1 rfl,
    (checksum_mismatch_leaves_file (fun b => [b.length]) [1] (some [1]) none [7, 7]
      (.checksumMismatch [1] [2]) (.checksumMismatch [1] [2])).2 rfl⟩

/-! ## The ETag strategy's verdict -/

/-- C4.  For every non-panicking quote-stripped ETag value: the response body
is always fetched and written to the target path regardless of any local
file, and the attempt succeeds exactly when the stripped ETag contains a
literal `'-'` (missing or weak/placeholder validator, accepted
unconditionally) or the ETag string's bytes are exactly the 16-byte raw MD5
digest of the downloaded bytes; any inequality fails the attempt. -/
theorem etag_download_verdict (md5 : Bytes → Bytes) (header : Option (List Char))
    (disk : Option Bytes) (resp : Bytes) (etag : List Char)
    (he : getEtag header = some etag) :
    ((etagDownload md5 header disk resp).map Prod.snd = some (some resp)) ∧
    ((etagDownload md5 header disk resp).map Prod.fst = some (.ok ())
      ↔ (etag.contains '-' = true ∨ utf8Bytes etag = md5 resp)) := by
  unfold etagDownload
  rw [he]
  dsimp only
  by_cases h1 : etag.contains '-' = true
  · rw [if_pos h1]
    exact ⟨rfl, ⟨fun _ => Or.inl h1, fun _ => rfl⟩⟩
  · rw [if_neg h1]
    by_cases h2 : utf8Bytes etag = md5 resp
    · rw [if_pos h2]
      exact ⟨rfl, ⟨fun _ => Or.inr h2, fun _ => rfl⟩⟩
    · rw [if_neg h2]
      refine ⟨rfl, ⟨fun hcontra => ?_, fun hor => ?_⟩⟩
      · simp at hcontra
      · rcases hor with hcontra | hcontra
        · exact absurd hcontra h1
        · exact absurd hcontra h2

/-- C4, witness: a quoted strong ETag whose bytes equal the digest is
accepted. -/
theorem etag_download_verdict_witness :
    (etagDownload (fun _ => [97]) (some ['"', 'a', '"']) none [0]).map Prod.fst
      = some (.ok ()) :=
  ((etag_download_verdict (fun _ => [97]) (some ['"', 'a', '"']) none [0] ['a']
      (by decide)).2).mpr (Or.inr (by decide))

/-! ## The scheduler's retry budget -/

theorem duJobRunTask_spec (outcomes : Nat → Bool) (k : Nat) :
    ∀ n a, a ≤ k + 1 → k + 1 - a = n →
      (duJobRunTask outcomes k a).2 ≤ k + 1 ∧
      ((duJobRunTask outcomes k a).1 = false → (duJobRunTask outcomes k a).2 = k + 1) := by
  intro n
  induction n with
  | zero =>
    intro a ha hn
    have ha' : a = k + 1 := by omega
    unfold duJobRunTask
    rw [dif_pos (by omega)]
    exact ⟨by omega, fun _ => by omega⟩
  | succ n ih =>
    intro a ha hn
    have hle : ¬(a > k) := by omega
    unfold duJobRunTask
    rw [dif_neg hle]
    by_cases hout : outcomes a = true
    · rw [if_pos hout]
      refine ⟨by dsimp only; omega, ?_⟩
      intro hfalse
      dsimp only at hfalse
      cases hfalse
    · rw [if_neg hout]
      exact ih (a + 1) (by omega) (by omega)

/-- C5, counterexample to the claim as stated: with an attempt budget of
`max_attempts = 3`, a task that fails every attempt has its download
operation invoked 4 times — not at most 3 — before it is recorded as a
permanent failure, because the budget guard compares with strict
inequality (`get_attempts() > max_download_attempts`). -/
theorem attempt_budget_cx :
    duJobRunTask (fun _ => false) 3 0 = (false, 4) ∧ ¬(4 ≤ 3) := by
  constructor
  · simp [duJobRunTask]
  · omega

/-- C5, amended claim: a task's download operation is invoked at most `k + 1`
times under attempt budget `max_attempts = k`; a task recorded as a permanent
failure has exactly `k + 1` recorded attempts; and the scenario holds as
stated: with `k = 3`, a task failing its first two attempts and succeeding on
the third completes successfully with exactly 3 recorded attempts. -/
theorem attempt_budget (outcomes : Nat → Bool) (k : Nat) :
    (duJobRunTask outcomes k 0).2 ≤ k + 1 ∧
    ((duJobRunTask outcomes k 0).1 = false → (duJobRunTask outcomes k 0).2 = k + 1) ∧
    duJobRunTask (fun n => decide (2 ≤ n)) 3 0 = (true, 3) := by
  obtain ⟨h1, h2⟩ := duJobRunTask_spec outcomes k (k + 1) 0 (by omega) (by omega)
  refine ⟨h1, h2, ?_⟩
  simp [duJobRunTask]

/-- C5, witness: the amended bound applied to an always-failing task with
budget 3. -/
theorem attempt_budget_witness :
    (duJobRunTask (fun _ => false) 3 0).2 = 3 + 1 :=
  (attempt_budget (fun _ => false) 3).2.1 (by simp [duJobRunTask])

/-! ## The final progress-sink action of a job run -/

/-- C6.  On the failure path of `DownloadJob::start` in
`src/download_utils/download_job.rs`, the `JobFailed` error is returned with
`?` before the final `progress_reporter.clear()` is reached, so the last
event the sink sees is the last progress update, not a clear — stale
progress persists.  The reworked job in
`src/version_manager/downloader/download_job.rs` clears before deciding the
outcome, so its final sink action is a clear on both exit paths. -/
theorem job_clear_skipped_on_failure :
    (duStartSinkTrace [SinkEvent.setAll "Downloading client.jar" 50 100] true).2 = false ∧
    (duStartSinkTrace [SinkEvent.setAll "Downloading client.jar" 50 100] true).1.getLast?
        = some (SinkEvent.setAll "Downloading client.jar" 50 100) ∧
    (duStartSinkTrace [SinkEvent.setAll "Downloading client.jar" 50 100] true).1.getLast?
        ≠ some SinkEvent.clear ∧
    ∀ (taskEvents : List SinkEvent) (ignoreFailures anyFailures : Bool),
      (vmStartSinkTrace taskEvents ignoreFailures anyFailures).1.getLast?
        = some SinkEvent.clear := by
  refine ⟨by decide, by decide, by decide, ?_⟩
  intro taskEvents ignoreFailures anyFailures
  unfold vmStartSinkTrace
  dsimp only
  rw [show SinkEvent.clear :: (taskEvents ++ [SinkEvent.clear])
      = (SinkEvent.clear :: taskEvents) ++ [SinkEvent.clear] from rfl]
  rw [List.getLast?_concat]

/-! ## Uniqueness key of asset fetch tasks -/

theorem hashInsert_keys (m : List (AssetObject × String)) (key : AssetObject)
    (value : String) :
    (((hashInsert m key value).map Prod.fst).Nodup ↔
      ((m.map Prod.fst).Nodup)) ∧
    ∀ o : AssetObject, o ∈ (hashInsert m key value).map Prod.fst ↔
      (o ∈ m.map Prod.fst ∨ o = key) := by
  unfold hashInsert
  by_cases hmem : m.any (fun q => decide (q.1 = key)) = true
  · rw [if_pos hmem]
    have hkeys : (m.map (fun q => if q.1 = key then (key, value) else q)).map Prod.fst
        = m.map Prod.fst := by
      rw [List.map_map]
      apply List.map_congr_left
      intro q _
      dsimp only [Function.comp]
      split
      next hq => exact hq.symm
      next => rfl
    have hkey_mem : key ∈ m.map Prod.fst := by
      rw [List.any_eq_true] at hmem
      obtain ⟨q, hq, hq'⟩ := hmem
      rw [decide_eq_true_eq] at hq'
      exact List.mem_map.mpr ⟨q, hq, hq'⟩
    rw [hkeys]
    refine ⟨Iff.rfl, fun o => ?_⟩
    constructor
    · exact fun ho => Or.inl ho
    · intro ho
      rcases ho with ho | ho
      · exact ho
      · rw [ho]
        exact hkey_mem
  · rw [if_neg hmem]
    have hkey_nmem : key ∉ m.map Prod.fst := by
      intro hcontra
      obtain ⟨q, hq, hq'⟩ := List.mem_map.mp hcontra
      exact hmem (List.any_eq_true.mpr ⟨q, hq, by rw [decide_eq_true_eq]; exact hq'⟩)
    constructor
    · simp only [List.map_append, List.map_cons, List.map_nil]
      simp [List.nodup_append, hkey_nmem]
    · intro o
      simp

theorem getUniqueObjects_foldl (objects : List (String × AssetObject)) :
    ∀ acc : List (AssetObject × String), ((acc.map Prod.fst).Nodup) →
      ((objects.foldl (fun acc p => hashInsert acc p.2 p.1) acc).map Prod.fst).Nodup ∧
      ∀ o, o ∈ (objects.foldl (fun acc p => hashInsert acc p.2 p.1) acc).map Prod.fst ↔
        (o ∈ acc.map Prod.fst ∨ o ∈ objects.map Prod.snd) := by
  induction objects with
  | nil =>
    intro acc h
    exact ⟨h, by simp⟩
  | cons p t ih =>
    intro acc h
    rw [List.foldl_cons]
    obtain ⟨hins_nd, hins_mem⟩ := hashInsert_keys acc p.2 p.1
    obtain ⟨hnd, hmem⟩ := ih (hashInsert acc p.2 p.1) (hins_nd.mpr h)
    refine ⟨hnd, ?_⟩
    intro o
    rw [hmem o, hins_mem o]
    simp only [List.map_cons, List.mem_cons]
    tauto

/-- C8, counterexample to the claim as stated: two asset names whose objects
carry the identical checksum but different sizes produce two fetch tasks, not
one — uniqueness is keyed on the whole object record, not on the checksum. -/
theorem unique_objects_by_checksum_cx :
    ((⟨nullSha1, 1, none, none, none⟩ : AssetObject).hash
        = (⟨nullSha1, 2, none, none, none⟩ : AssetObject).hash) ∧
    (getUniqueObjects
        [("a", ⟨nullSha1, 1, none, none, none⟩),
          ("b", ⟨nullSha1, 2, none, none, none⟩)]).length = 2 := by
  exact ⟨rfl, by decide⟩

/-- C8, amended claim: task construction emits exactly one fetch task per
distinct asset-object record — uniqueness is keyed on the entire `AssetObject`
value (checksum, size and compressed metadata) rather than on the checksum
alone; two asset names mapping to fully identical records produce exactly one
fetch task. -/
theorem unique_objects_per_record (objects : List (String × AssetObject)) :
    ((getUniqueObjects objects).map Prod.fst).Nodup ∧
    (∀ o : AssetObject, o ∈ (getUniqueObjects objects).map Prod.fst ↔
      o ∈ objects.map Prod.snd) ∧
    ∀ (n1 n2 : String) (o : AssetObject), (getUniqueObjects [(n1, o), (n2, o)]).length = 1 := by
  obtain ⟨hnd, hmem⟩ := getUniqueObjects_foldl objects [] (by simp)
  refine ⟨hnd, ?_, ?_⟩
  · intro o
    unfold getUniqueObjects
    rw [hmem o]
    simp
  · intro n1 n2 o
    show (hashInsert (hashInsert [] o n1) o n2).length = 1
    unfold hashInsert
    simp

end MCL
